import Mathlib

/-!
# Verification of the jaxley morphology-to-conductance assembly core

Shallow embedding of `jaxley/utils/cell_utils.py` and `jaxley/modules/cell.py`
(the conductance calculators, topology builders, index remapper, grouped
summation, and the axial-conductance assembler), together with proofs of the
specified properties.

Machine floats are modelled by exact rationals (`ℚ`); integer arrays by
`List Int` / `List Nat`.  Division is ℚ-division (total, `x / 0 = 0`), which
agrees with the source on every input where the source's denominators are
nonzero.
-/

namespace Jaxley

/-! ## Conductance Calculator (cell_utils.py, lines 262-311) -/

/-- `compute_coupling_cond(rad1, rad2, r_a1, r_a2, l1, l2)`:
`rad1 * rad2**2 / (r_a1 * rad2**2 * l1 + r_a2 * rad1**2 * l2) / l1 * 10**7`. -/
def compute_coupling_cond (rad1 rad2 r_a1 r_a2 l1 l2 : ℚ) : ℚ :=
  rad1 * rad2 ^ 2 / (r_a1 * rad2 ^ 2 * l1 + r_a2 * rad1 ^ 2 * l2) / l1 * 10 ^ 7

/-- `compute_coupling_cond_branchpoint(rad, r_a, l)`: `rad / r_a / l**2 * 10**7`. -/
def compute_coupling_cond_branchpoint (rad r_a l : ℚ) : ℚ :=
  rad / r_a / l ^ 2 * 10 ^ 7

/-- `compute_impact_on_node(rad, r_a, l)`: `rad**2 / r_a / l`. -/
def compute_impact_on_node (rad r_a l : ℚ) : ℚ :=
  rad ^ 2 / r_a / l

/-- The spec's formula for the coupling conductance, transcribed from the
spec's words: `g = rad_sink · rad_source² /
(ra_sink·rad_source²·len_source + ra_source·rad_sink²·len_sink) / len_sink`,
scaled by `10^7`.  (Note the pairing of each resistivity with the *other*
compartment's length in the denominator.) -/
def spec_coupling_cond (rad_sink rad_source ra_sink ra_source len_sink len_source : ℚ) : ℚ :=
  rad_sink * rad_source ^ 2 /
    (ra_sink * rad_source ^ 2 * len_source + ra_source * rad_sink ^ 2 * len_sink) /
    len_sink * 10 ^ 7

/-- The amended spec formula: each axial resistivity is paired with its *own*
compartment's length in the denominator:
`g = rad_sink · rad_source² /
(ra_sink·rad_source²·len_sink + ra_source·rad_sink²·len_source) / len_sink`,
scaled by `10^7`. -/
def spec_coupling_cond_fixed (rad_sink rad_source ra_sink ra_source len_sink len_source : ℚ) : ℚ :=
  rad_sink * rad_source ^ 2 /
    (ra_sink * rad_source ^ 2 * len_sink + ra_source * rad_sink ^ 2 * len_source) /
    len_sink * 10 ^ 7

/-- The unscaled two-compartment cable formula (the source's expression
without the `10^7` unit-conversion factor). -/
def coupling_cond_unscaled (rad1 rad2 r_a1 r_a2 l1 l2 : ℚ) : ℚ :=
  rad1 * rad2 ^ 2 / (r_a1 * rad2 ^ 2 * l1 + r_a2 * rad1 ^ 2 * l2) / l1

/-! ## `Cell.init_cell_conds` (cell.py, lines 180-202) -/

/-- `Cell.init_cell_conds(ra_parent, ra_child, r_parent, r_child, l_parent,
l_child)`: computes `compute_coupling_cond` in both directions, then
multiplies each result by `10**7` again, and returns the
(`branch_conds_fwd`, `branch_conds_bwd`) pair. -/
def init_cell_conds (ra_parent ra_child r_parent r_child l_parent l_child : ℚ) : ℚ × ℚ :=
  let branch_conds_fwd :=
    compute_coupling_cond r_child r_parent ra_child ra_parent l_child l_parent
  let branch_conds_bwd :=
    compute_coupling_cond r_parent r_child ra_parent ra_child l_parent l_child
  (branch_conds_fwd * 10 ^ 7, branch_conds_bwd * 10 ^ 7)

/-! ## Index Remapper (cell_utils.py, lines 314-320) -/

/-- `np.unique` / `jnp.unique` on an integer array: the sorted list of the
distinct values.  Realized as insertion sort of the deduplicated list (both
structurally recursive, so concrete instances evaluate). -/
def np_unique (l : List Int) : List Int :=
  List.insertionSort (fun a b => a ≤ b) l.dedup

/-- `remap_to_consecutive(arr)`: `jnp.unique(arr, return_inverse=True)`
returns, at every position, the index of that position's value in the sorted
list of distinct values. -/
def remap_to_consecutive (arr : List Int) : List Int :=
  arr.map (fun x => ((np_unique arr).indexOf x : Int))

end Jaxley

namespace Jaxley

/-! ## Facts about `np_unique` -/

theorem mem_np_unique {l : List Int} {x : Int} : x ∈ np_unique l ↔ x ∈ l := by
  unfold np_unique
  rw [(List.perm_insertionSort _ _).mem_iff, List.mem_dedup]

theorem nodup_np_unique (l : List Int) : (np_unique l).Nodup :=
  (List.perm_insertionSort _ _).nodup_iff.mpr (List.nodup_dedup l)

theorem sorted_le_np_unique (l : List Int) : (np_unique l).Sorted (· ≤ ·) :=
  List.sorted_insertionSort _ _

theorem sorted_lt_np_unique (l : List Int) : (np_unique l).Sorted (· < ·) :=
  (sorted_le_np_unique l).lt_of_le (nodup_np_unique l)

theorem length_np_unique (l : List Int) : (np_unique l).length = l.toFinset.card := by
  rw [List.card_toFinset]
  exact (List.perm_insertionSort _ _).length_eq

/-- In a strictly sorted list, `indexOf` is strictly monotone on members. -/
theorem indexOf_lt_indexOf_of_lt {l : List Int} (hs : l.Sorted (· < ·)) {x y : Int}
    (hx : x ∈ l) (hy : y ∈ l) (hxy : x < y) :
    l.indexOf x < l.indexOf y := by
  have hxl : l.indexOf x < l.length := List.indexOf_lt_length.mpr hx
  have hyl : l.indexOf y < l.length := List.indexOf_lt_length.mpr hy
  by_contra hcon
  push_neg at hcon
  rcases lt_or_eq_of_le hcon with hlt | heq
  · have hrel := hs.rel_get_of_lt
      (a := ⟨l.indexOf y, hyl⟩) (b := ⟨l.indexOf x, hxl⟩) (Fin.mk_lt_mk.mpr hlt)
    rw [List.indexOf_get, List.indexOf_get] at hrel
    exact absurd hxy (not_lt.mpr hrel.le)
  · exact absurd ((List.indexOf_inj hy hx).mp heq) hxy.ne'

theorem getD_remap {arr : List Int} {i : Nat} (h : i < arr.length) :
    (remap_to_consecutive arr).getD i 0 =
      ((np_unique arr).indexOf (arr.getD i 0) : Int) := by
  unfold remap_to_consecutive
  rw [List.getD_eq_getElem _ _ (by simpa using h), List.getElem_map,
    List.getD_eq_getElem _ _ h]

theorem getD_mem_of_lt {l : List Int} {i : Nat} (h : i < l.length) :
    l.getD i 0 ∈ l := by
  rw [List.getD_eq_getElem _ _ h]
  exact List.getElem_mem h

/-! ## Theorems for C1 -/

/-- C1 (counterexample): at `rad_sink = 1, rad_source = 1, ra_sink = 1,
ra_source = 2, len_sink = 1, len_source = 3` — all strictly positive — the
source's `compute_coupling_cond` returns `10^7 / 7`, while the spec's formula
gives `10^7 / 5`; the claimed equality fails. -/
theorem C1_counterexample :
    compute_coupling_cond 1 1 1 2 1 3 ≠ spec_coupling_cond 1 1 1 2 1 3 := by
  unfold compute_coupling_cond spec_coupling_cond
  norm_num

/-- C1 (amended): for all strictly positive scalar inputs, the coupling
conductance returned by `compute_coupling_cond` equals the formula
`rad_sink · rad_source² /
(ra_sink·rad_source²·len_sink + ra_source·rad_sink²·len_source) / len_sink`
scaled by `10^7` — i.e. the spec's formula with each axial resistivity paired
with its own compartment's length. -/
theorem compute_coupling_cond_eq_spec_fixed
    (rad_sink rad_source ra_sink ra_source len_sink len_source : ℚ)
    (h1 : 0 < rad_sink) (h2 : 0 < rad_source) (h3 : 0 < ra_sink)
    (h4 : 0 < ra_source) (h5 : 0 < len_sink) (h6 : 0 < len_source) :
    compute_coupling_cond rad_sink rad_source ra_sink ra_source len_sink len_source =
      spec_coupling_cond_fixed rad_sink rad_source ra_sink ra_source len_sink len_source := by
  rfl

/-- C1 witness: the amended equality at the concrete positive input
`(1, 1, 1, 2, 1, 3)`. -/
theorem compute_coupling_cond_eq_spec_fixed_witness :
    compute_coupling_cond 1 1 1 2 1 3 = spec_coupling_cond_fixed 1 1 1 2 1 3 :=
  compute_coupling_cond_eq_spec_fixed 1 1 1 2 1 3 (by norm_num) (by norm_num)
    (by norm_num) (by norm_num) (by norm_num) (by norm_num)

/-! ## Theorems for C9 -/

/-- C9: for all strictly positive inputs the coupling conductance is strictly
positive (and, being an exact rational, finite); and there are strictly
positive inputs on which swapping the sink and source roles changes the
value, so the conductance is not symmetric. -/
theorem coupling_cond_pos_and_asymmetric :
    (∀ r1 r2 ra1 ra2 l1 l2 : ℚ, 0 < r1 → 0 < r2 → 0 < ra1 → 0 < ra2 →
      0 < l1 → 0 < l2 → 0 < compute_coupling_cond r1 r2 ra1 ra2 l1 l2) ∧
    (∃ r1 r2 ra1 ra2 l1 l2 : ℚ, 0 < r1 ∧ 0 < r2 ∧ 0 < ra1 ∧ 0 < ra2 ∧
      0 < l1 ∧ 0 < l2 ∧
      compute_coupling_cond r1 r2 ra1 ra2 l1 l2 ≠
        compute_coupling_cond r2 r1 ra2 ra1 l2 l1) := by
  constructor
  · intro r1 r2 ra1 ra2 l1 l2 h1 h2 h3 h4 h5 h6
    unfold compute_coupling_cond
    positivity
  · refine ⟨1, 1, 1, 1, 1, 2, by norm_num, by norm_num, by norm_num, by norm_num,
      by norm_num, by norm_num, ?_⟩
    unfold compute_coupling_cond
    norm_num

/-- C9 witness: positivity at the concrete input `(1, 2, 3, 4, 5, 6)`. -/
theorem coupling_cond_pos_witness :
    0 < compute_coupling_cond 1 2 3 4 5 6 :=
  coupling_cond_pos_and_asymmetric.1 1 2 3 4 5 6 (by norm_num) (by norm_num)
    (by norm_num) (by norm_num) (by norm_num) (by norm_num)

/-! ## Theorems for C10 -/

/-- C10: `Cell.init_cell_conds` returns, for each direction, exactly `10^7`
times the value of `compute_coupling_cond` on the same child/parent geometry;
since `compute_coupling_cond` itself already contains the `10^7` conversion
factor, each branch-point conductance equals `10^14` times the unscaled cable
formula, i.e. the `10^7` scaling is applied twice in total. -/
theorem init_cell_conds_double_scaling
    (ra_parent ra_child r_parent r_child l_parent l_child : ℚ) :
    (init_cell_conds ra_parent ra_child r_parent r_child l_parent l_child).1 =
        10 ^ 7 * compute_coupling_cond r_child r_parent ra_child ra_parent l_child l_parent ∧
    (init_cell_conds ra_parent ra_child r_parent r_child l_parent l_child).2 =
        10 ^ 7 * compute_coupling_cond r_parent r_child ra_parent ra_child l_parent l_child ∧
    (init_cell_conds ra_parent ra_child r_parent r_child l_parent l_child).1 =
        10 ^ 7 * 10 ^ 7 *
          coupling_cond_unscaled r_child r_parent ra_child ra_parent l_child l_parent ∧
    (init_cell_conds ra_parent ra_child r_parent r_child l_parent l_child).2 =
        10 ^ 7 * 10 ^ 7 *
          coupling_cond_unscaled r_parent r_child ra_parent ra_child l_parent l_child := by
  unfold init_cell_conds compute_coupling_cond coupling_cond_unscaled
  refine ⟨by ring, by ring, by ring, by ring⟩

end Jaxley

namespace Jaxley

/-! ## Theorems for C4 -/

/-- The full behavioral characterization of `remap_to_consecutive`, shared
by the theorems below. -/
theorem remap_spec_aux (a : List Int) :
    (remap_to_consecutive a).length = a.length ∧
    (∀ i j, i < a.length → j < a.length →
      ((remap_to_consecutive a).getD i 0 = (remap_to_consecutive a).getD j 0 ↔
        a.getD i 0 = a.getD j 0)) ∧
    (∀ i, i < a.length →
      0 ≤ (remap_to_consecutive a).getD i 0 ∧
      (remap_to_consecutive a).getD i 0 < (a.toFinset.card : Int)) ∧
    (∀ m : Nat, m < a.toFinset.card → ∃ i, i < a.length ∧
      (remap_to_consecutive a).getD i 0 = (m : Int)) ∧
    (∀ i j, i < a.length → j < a.length → a.getD i 0 < a.getD j 0 →
      (remap_to_consecutive a).getD i 0 < (remap_to_consecutive a).getD j 0) := by
  refine ⟨by simp [remap_to_consecutive], ?_, ?_, ?_, ?_⟩
  · intro i j hi hj
    rw [getD_remap hi, getD_remap hj, Int.natCast_inj]
    exact List.indexOf_inj (mem_np_unique.mpr (getD_mem_of_lt hi))
      (mem_np_unique.mpr (getD_mem_of_lt hj))
  · intro i hi
    rw [getD_remap hi]
    refine ⟨Int.natCast_nonneg _, ?_⟩
    rw [Nat.cast_lt, ← length_np_unique]
    exact List.indexOf_lt_length.mpr (mem_np_unique.mpr (getD_mem_of_lt hi))
  · intro m hm
    have hm' : m < (np_unique a).length := by rwa [length_np_unique]
    have hx : (np_unique a).get ⟨m, hm'⟩ ∈ a :=
      mem_np_unique.mp (List.get_mem _ _ _)
    obtain ⟨i, hi, hix⟩ := List.mem_iff_getElem.mp hx
    refine ⟨i, hi, ?_⟩
    rw [getD_remap hi, List.getD_eq_getElem _ _ hi, hix, Int.natCast_inj,
      List.get_eq_getElem]
    exact List.indexOf_getElem (nodup_np_unique a) m hm'
  · intro i j hi hj hij
    rw [getD_remap hi, getD_remap hj, Nat.cast_lt]
    exact indexOf_lt_indexOf_of_lt (sorted_lt_np_unique a)
      (mem_np_unique.mpr (getD_mem_of_lt hi))
      (mem_np_unique.mpr (getD_mem_of_lt hj)) hij

/-- C4: for every integer array, `remap_to_consecutive` returns an array of
the same length in which two positions receive equal outputs iff their inputs
were equal; every output lies in `{0, ..., k-1}` with `k` the number of
distinct inputs; every value of `{0, ..., k-1}` is attained; and outputs
respect the sorted order of the distinct inputs (a strictly smaller input
receives a strictly smaller output). -/
theorem remap_to_consecutive_spec (a : List Int) :
    (remap_to_consecutive a).length = a.length ∧
    (∀ i j, i < a.length → j < a.length →
      ((remap_to_consecutive a).getD i 0 = (remap_to_consecutive a).getD j 0 ↔
        a.getD i 0 = a.getD j 0)) ∧
    (∀ i, i < a.length →
      0 ≤ (remap_to_consecutive a).getD i 0 ∧
      (remap_to_consecutive a).getD i 0 < (a.toFinset.card : Int)) ∧
    (∀ m : Nat, m < a.toFinset.card → ∃ i, i < a.length ∧
      (remap_to_consecutive a).getD i 0 = (m : Int)) ∧
    (∀ i j, i < a.length → j < a.length → a.getD i 0 < a.getD j 0 →
      (remap_to_consecutive a).getD i 0 < (remap_to_consecutive a).getD j 0) :=
  remap_spec_aux a

/-- C4 witness: the specified behavior at the concrete input
`[0, 0, 1, 4, 4, 6, 6]` (the docstring's own example). -/
theorem remap_to_consecutive_spec_witness :
    (remap_to_consecutive [0, 0, 1, 4, 4, 6, 6]).length = 7 ∧
    ((remap_to_consecutive [0, 0, 1, 4, 4, 6, 6]).getD 0 0 =
        (remap_to_consecutive [0, 0, 1, 4, 4, 6, 6]).getD 1 0 ↔
      ([0, 0, 1, 4, 4, 6, 6] : List Int).getD 0 0 =
        ([0, 0, 1, 4, 4, 6, 6] : List Int).getD 1 0) ∧
    (remap_to_consecutive [0, 0, 1, 4, 4, 6, 6]).getD 2 0 <
      (([0, 0, 1, 4, 4, 6, 6] : List Int).toFinset.card : Int) :=
  ⟨(remap_to_consecutive_spec [0, 0, 1, 4, 4, 6, 6]).1,
    (remap_to_consecutive_spec [0, 0, 1, 4, 4, 6, 6]).2.1 0 1 (by decide) (by decide),
    ((remap_to_consecutive_spec [0, 0, 1, 4, 4, 6, 6]).2.2.1 2 (by decide)).2⟩

end Jaxley

namespace Jaxley

/-! ## The canonical list `[0, 1, ..., k-1]` over `Int`, used for C5 -/

def intRange (k : Nat) : List Int := (List.range k).map (fun m : Nat => (m : Int))

theorem length_intRange (k : Nat) : (intRange k).length = k := by
  simp [intRange]

theorem nodup_intRange (k : Nat) : (intRange k).Nodup :=
  (List.nodup_range k).map Nat.cast_injective

theorem sorted_lt_intRange (k : Nat) : (intRange k).Sorted (· < ·) :=
  List.Pairwise.map _ (fun a b h => by exact_mod_cast h) (List.sorted_lt_range k)

theorem mem_intRange {k : Nat} {x : Int} : x ∈ intRange k ↔ 0 ≤ x ∧ x < (k : Int) := by
  simp only [intRange, List.mem_map, List.mem_range]
  constructor
  · rintro ⟨m, hm, rfl⟩
    exact ⟨Int.natCast_nonneg m, by exact_mod_cast hm⟩
  · rintro ⟨h0, hx⟩
    exact ⟨x.toNat, by omega, by omega⟩

theorem indexOf_intRange {k m : Nat} (hm : m < k) :
    (intRange k).indexOf ((m : Int)) = m := by
  have hmL : m < (intRange k).length := by rw [length_intRange]; exact hm
  have hgm : (intRange k).get ⟨m, hmL⟩ = (m : Int) := by
    simp [intRange]
  rw [← hgm, List.get_eq_getElem]
  exact List.indexOf_getElem (nodup_intRange k) m hmL

/-! ## Theorems for C5 -/

/-- C5: `remap_to_consecutive` is idempotent on its own output — re-applying
it to its result returns that result unchanged. -/
theorem remap_to_consecutive_idempotent (a : List Int) :
    remap_to_consecutive (remap_to_consecutive a) = remap_to_consecutive a := by
  have hspec := remap_spec_aux a
  set out := remap_to_consecutive a with hout
  set k := a.toFinset.card with hk
  have hlen : out.length = a.length := hspec.1
  have hmem : ∀ x : Int, x ∈ out ↔ 0 ≤ x ∧ x < (k : Int) := by
    intro x
    constructor
    · intro hx
      obtain ⟨i, hi, hix⟩ := List.mem_iff_getElem.mp hx
      have hi' : i < a.length := by omega
      have hb := hspec.2.2.1 i hi'
      rw [List.getD_eq_getElem _ _ hi] at hb
      rw [← hix]
      exact hb
    · rintro ⟨h0, hxk⟩
      obtain ⟨i, hi, hieq⟩ := hspec.2.2.2.1 x.toNat (by omega)
      have hi2 : i < out.length := by omega
      rw [List.getD_eq_getElem _ _ hi2] at hieq
      have hx : out.get ⟨i, hi2⟩ = x := by
        rw [List.get_eq_getElem, hieq]
        omega
      exact hx ▸ List.get_mem out i hi2
  have huL : np_unique out = intRange k := by
    apply List.eq_of_perm_of_sorted
      (List.perm_of_nodup_nodup_toFinset_eq (nodup_np_unique out) (nodup_intRange k) ?_)
      (sorted_le_np_unique out) (sorted_lt_intRange k).le_of_lt
    ext x
    rw [List.mem_toFinset, List.mem_toFinset, mem_np_unique, hmem, mem_intRange]
  apply List.ext_getElem
  · simp [remap_to_consecutive]
  · intro i h1 h2
    have hgi : (remap_to_consecutive out)[i] =
        ((np_unique out).indexOf out[i] : Int) := by
      simp [remap_to_consecutive]
    rw [hgi, huL]
    have hbounds := (hmem out[i]).mp (List.getElem_mem h2)
    have hcast : (out[i] : Int) = ((out[i].toNat : Nat) : Int) := by omega
    rw [hcast, indexOf_intRange (by omega)]

end Jaxley

namespace Jaxley

/-! ## Topology Builder: `compute_levels` (cell_utils.py, lines 136-144) -/

/-- One iteration of the `compute_levels` loop: branch `i` (the next index)
gets level `0` if its parent sentinel is `-1`, otherwise the already-computed
level of its parent plus one.  (The source writes into a preallocated zero
array in increasing index order; reading a not-yet-written slot returns `0`,
matched here by the `getD` default.) -/
def levelsStep (levels : List Int) (p : Int) : List Int :=
  levels ++ [if p = -1 then 0 else levels.getD p.toNat 0 + 1]

/-- `compute_levels(parents)`: process branches in increasing index order. -/
def compute_levels (parents : List Int) : List Int :=
  parents.foldl levelsStep []

theorem length_foldl_levelsStep :
    ∀ (ps : List Int) (acc : List Int),
      (ps.foldl levelsStep acc).length = acc.length + ps.length
  | [], acc => by simp
  | p :: ps, acc => by
    rw [List.foldl_cons, length_foldl_levelsStep ps]
    simp [levelsStep]
    omega

theorem length_compute_levels (parents : List Int) :
    (compute_levels parents).length = parents.length := by
  unfold compute_levels
  rw [length_foldl_levelsStep]
  simp

theorem getD_foldl_levelsStep :
    ∀ (ps : List Int) (acc : List Int) (j : Nat), j < acc.length →
      (ps.foldl levelsStep acc).getD j 0 = acc.getD j 0
  | [], _, _, _ => rfl
  | p :: ps, acc, j, hj => by
    rw [List.foldl_cons,
      getD_foldl_levelsStep ps (levelsStep acc p) j (by simp [levelsStep]; omega)]
    exact List.getD_append _ _ _ _ hj

theorem compute_levels_append (ps : List Int) (p : Int) :
    compute_levels (ps ++ [p]) = levelsStep (compute_levels ps) p := by
  unfold compute_levels
  rw [List.foldl_append]
  rfl

end Jaxley

namespace Jaxley

/-! ## Theorems for C3 -/

/-- C3: for every parent-index array in which each non-root branch's parent
index is strictly less than the branch's own index (roots marked `-1`),
`compute_levels` returns a same-length array with level `0` for every root
branch and `level[b] = level[parent[b]] + 1` for every non-root branch. -/
theorem compute_levels_spec (parents : List Int)
    (htopo : ∀ i, i < parents.length →
      parents.getD i 0 = -1 ∨
        (0 ≤ parents.getD i 0 ∧ parents.getD i 0 < (i : Int))) :
    (compute_levels parents).length = parents.length ∧
    ∀ i, i < parents.length →
      (parents.getD i 0 = -1 → (compute_levels parents).getD i 0 = 0) ∧
      (parents.getD i 0 ≠ -1 →
        (compute_levels parents).getD i 0 =
          (compute_levels parents).getD (parents.getD i 0).toNat 0 + 1) := by
  refine ⟨length_compute_levels parents, ?_⟩
  induction parents using List.reverseRecOn with
  | nil => intro i hi; simp at hi
  | append_singleton ps p ih =>
    have hlenL : (compute_levels ps).length = ps.length := length_compute_levels ps
    have hgetps : ∀ j, j < ps.length → (ps ++ [p]).getD j 0 = ps.getD j 0 :=
      fun j hj => List.getD_append _ _ _ _ hj
    have htopo' : ∀ i, i < ps.length →
        ps.getD i 0 = -1 ∨ (0 ≤ ps.getD i 0 ∧ ps.getD i 0 < (i : Int)) := by
      intro i hi
      have := htopo i (by simp; omega)
      rwa [hgetps i hi] at this
    have hstable : ∀ j, j < ps.length →
        (compute_levels (ps ++ [p])).getD j 0 = (compute_levels ps).getD j 0 := by
      intro j hj
      rw [compute_levels_append]
      unfold levelsStep
      exact List.getD_append _ _ _ _ (by omega)
    intro i hi
    rw [List.length_append, List.length_singleton] at hi
    rcases Nat.lt_succ_iff_lt_or_eq.mp hi with hilt | hieq
    · -- index inside the old prefix: levels and parents are unchanged there
      have hmain := ih htopo' i hilt
      constructor
      · intro hroot
        rw [hgetps i hilt] at hroot
        rw [hstable i hilt]
        exact hmain.1 hroot
      · intro hnoroot
        rw [hgetps i hilt] at hnoroot
        have hpar := (htopo' i hilt).resolve_left hnoroot
        have hparlt : (ps.getD i 0).toNat < ps.length := by omega
        rw [hgetps i hilt, hstable i hilt, hstable _ hparlt]
        exact hmain.2 hnoroot
    · -- the newly appended index
      subst hieq
      have hgetp : (ps ++ [p]).getD ps.length 0 = p := by
        rw [List.getD_append_right _ _ _ _ (le_refl _)]
        simp
      have hgetnew : (compute_levels (ps ++ [p])).getD ps.length 0 =
          if p = -1 then 0 else (compute_levels ps).getD p.toNat 0 + 1 := by
        rw [compute_levels_append]
        unfold levelsStep
        rw [List.getD_append_right _ _ _ _ (by omega)]
        simp [hlenL]
      constructor
      · intro hroot
        rw [hgetp] at hroot
        rw [hgetnew, if_pos hroot]
      · intro hnoroot
        rw [hgetp] at hnoroot
        have hpar := (htopo ps.length (by simp)).resolve_left (by rwa [hgetp])
        rw [hgetp] at hpar
        have hparlt : p.toNat < ps.length := by omega
        rw [hgetp, hgetnew, if_neg hnoroot, hstable _ hparlt]

/-- C3 witness: the specified behavior at the concrete parent array
`[-1, 0, 0]`. -/
theorem compute_levels_spec_witness :
    (compute_levels [-1, 0, 0]).length = 3 ∧
    (compute_levels [-1, 0, 0]).getD 0 0 = 0 ∧
    (compute_levels [-1, 0, 0]).getD 1 0 = (compute_levels [-1, 0, 0]).getD 0 0 + 1 :=
  ⟨(compute_levels_spec [-1, 0, 0] (by decide)).1,
    ((compute_levels_spec [-1, 0, 0] (by decide)).2 0 (by decide)).1 (by decide),
    ((compute_levels_spec [-1, 0, 0] (by decide)).2 1 (by decide)).2 (by decide)⟩

end Jaxley

namespace Jaxley

/-! ## Grouped summation: `group_and_sum` (cell_utils.py, lines 416-433) -/

/-- One scatter-add update: add `p.2` into the accumulator at index `p.1`.
(Indices are assumed in range, as the spec requires; `List.set` leaves the
list unchanged out of range.) -/
def scatterAddStep (acc : List ℚ) (p : Nat × ℚ) : List ℚ :=
  acc.set p.1 (acc.getD p.1 0 + p.2)

/-- `group_and_sum(values_to_sum, inds_to_group_by, num_branchpoints)`:
initialize a zero vector of length `num_branchpoints`; if it is nonempty,
scatter-add every value into the entry named by its group index. -/
def group_and_sum (values_to_sum : List ℚ) (inds_to_group_by : List Nat)
    (num_branchpoints : Nat) : List ℚ :=
  if num_branchpoints > 0 then
    (inds_to_group_by.zip values_to_sum).foldl scatterAddStep
      (List.replicate num_branchpoints 0)
  else List.replicate num_branchpoints 0

theorem length_foldl_scatterAddStep :
    ∀ (l : List (Nat × ℚ)) (acc : List ℚ),
      (l.foldl scatterAddStep acc).length = acc.length
  | [], _ => rfl
  | p :: t, acc => by
    rw [List.foldl_cons, length_foldl_scatterAddStep t]
    simp [scatterAddStep]

theorem getD_foldl_scatterAddStep :
    ∀ (l : List (Nat × ℚ)) (acc : List ℚ) (j : Nat), j < acc.length →
      (l.foldl scatterAddStep acc).getD j 0 =
        acc.getD j 0 + ((l.filter (fun p => p.1 = j)).map Prod.snd).sum
  | [], acc, j, _ => by simp
  | p :: t, acc, j, hj => by
    rw [List.foldl_cons,
      getD_foldl_scatterAddStep t (scatterAddStep acc p) j (by simp [scatterAddStep]; omega)]
    by_cases hij : p.1 = j
    · have hset : (scatterAddStep acc p).getD j 0 = acc.getD j 0 + p.2 := by
        unfold scatterAddStep
        rw [hij, List.getD_eq_getElem _ _ (by simp; omega)]
        simp
      rw [hset, List.filter_cons_of_pos (by simpa using hij)]
      simp [add_assoc]
    · have hset : (scatterAddStep acc p).getD j 0 = acc.getD j 0 := by
        unfold scatterAddStep
        have h1 : j < (acc.set p.1 (acc.getD p.1 0 + p.2)).length := by simp; omega
        rw [List.getD_eq_getElem _ _ h1, List.getElem_set_of_ne hij]
        exact (List.getD_eq_getElem _ _ hj).symm
      rw [hset, List.filter_cons_of_neg (by simpa using hij)]

end Jaxley

namespace Jaxley

/-! ## Theorems for C7 -/

/-- C7: for `n` branch points, a value list, and an equal-length list of
group indices each in `[0, n)`, `group_and_sum` returns a length-`n` vector
whose `j`-th entry is the sum of the values whose group index equals `j`;
in particular for `n = 0` it returns the empty vector without error. -/
theorem group_and_sum_spec (values : List ℚ) (inds : List Nat) (n : Nat)
    (hlen : inds.length = values.length) (hin : ∀ i ∈ inds, i < n) :
    (group_and_sum values inds n).length = n ∧
    ∀ j, j < n → (group_and_sum values inds n).getD j 0 =
      (((inds.zip values).filter (fun p => p.1 = j)).map Prod.snd).sum := by
  unfold group_and_sum
  by_cases hn : n > 0
  · rw [if_pos hn]
    refine ⟨by rw [length_foldl_scatterAddStep]; simp, ?_⟩
    intro j hj
    rw [getD_foldl_scatterAddStep _ _ j (by simp; omega)]
    rw [List.getD_eq_getElem _ _ (by simp; omega), List.getElem_replicate, zero_add]
  · rw [if_neg hn]
    exact ⟨by simp, fun j hj => by omega⟩

/-- C7 witness: group ids `[0, 0, 1]` with values `[3, 4, 5]` over `2` branch
points give length `2` and first entry `3 + 4 = 7`. -/
theorem group_and_sum_spec_witness :
    (group_and_sum [3, 4, 5] [0, 0, 1] 2).length = 2 ∧
    (group_and_sum [3, 4, 5] [0, 0, 1] 2).getD 0 0 =
      ((([0, 0, 1].zip ([3, 4, 5] : List ℚ)).filter (fun p => p.1 = 0)).map Prod.snd).sum :=
  ⟨(group_and_sum_spec [3, 4, 5] [0, 0, 1] 2 (by decide) (by decide)).1,
    (group_and_sum_spec [3, 4, 5] [0, 0, 1] 2 (by decide) (by decide)).2 0 (by decide)⟩

end Jaxley

namespace Jaxley

/-! ## Network Assembler: `compute_axial_conductances`
(cell_utils.py, lines 451-512) -/

/-- One row of the `comp_edges` table: an edge-type tag (0 = c2c, 1/2 =
branchpoint-to-compartment, 3/4 = compartment-to-branchpoint) and global
source / sink node indices. -/
structure CompEdge where
  type : Nat
  source : Nat
  sink : Nat
deriving DecidableEq

/-- The `params` dictionary: per-compartment parameter arrays, indexed by
global compartment index. -/
structure Params where
  radius : List ℚ
  axial_resistivity : List ℚ
  length : List ℚ
  capacitance : List ℚ
deriving DecidableEq

/-- `compute_axial_conductances(comp_edges, params)`: per-edge-type subsets
(c2c, then bp2c, then c2bp), each guarded by an emptiness check as in the
source, concatenated in that order; the c2c and bp2c conductances are divided
by the sink's capacitance, the c2bp impacts are multiplied by `1000`. -/
def compute_axial_conductances (comp_edges : List CompEdge) (params : Params) : List ℚ :=
  let c2c_edges := comp_edges.filter (fun e => e.type = 0)
  let conds_c2c :=
    if c2c_edges.length > 0 then
      c2c_edges.map (fun e =>
        compute_coupling_cond
          (params.radius.getD e.sink 0) (params.radius.getD e.source 0)
          (params.axial_resistivity.getD e.sink 0) (params.axial_resistivity.getD e.source 0)
          (params.length.getD e.sink 0) (params.length.getD e.source 0)
        / params.capacitance.getD e.sink 0)
    else []
  let bp2c_edges := comp_edges.filter (fun e => e.type = 1 ∨ e.type = 2)
  let conds_bp2c :=
    if bp2c_edges.length > 0 then
      bp2c_edges.map (fun e =>
        compute_coupling_cond_branchpoint
          (params.radius.getD e.sink 0) (params.axial_resistivity.getD e.sink 0)
          (params.length.getD e.sink 0)
        / params.capacitance.getD e.sink 0)
    else []
  let c2bp_edges := comp_edges.filter (fun e => e.type = 3 ∨ e.type = 4)
  let conds_c2bp :=
    if c2bp_edges.length > 0 then
      c2bp_edges.map (fun e =>
        compute_impact_on_node
          (params.radius.getD e.source 0) (params.axial_resistivity.getD e.source 0)
          (params.length.getD e.source 0)
        * 1000)
    else []
  conds_c2c ++ conds_bp2c ++ conds_c2bp

/-- The Network Assembler as the spec describes it: apply the Conductance
Calculator per edge-type subset, concatenate the results in the fixed order
c2c, bp2c, c2bp, and divide the c2c and bp2c conductances (but not the c2bp
values) by the sink node's membrane capacitance. -/
def assemble_spec (comp_edges : List CompEdge) (params : Params) : List ℚ :=
  ((comp_edges.filter (fun e => e.type = 0)).map (fun e =>
      compute_coupling_cond
        (params.radius.getD e.sink 0) (params.radius.getD e.source 0)
        (params.axial_resistivity.getD e.sink 0) (params.axial_resistivity.getD e.source 0)
        (params.length.getD e.sink 0) (params.length.getD e.source 0)
      / params.capacitance.getD e.sink 0)) ++
  ((comp_edges.filter (fun e => e.type = 1 ∨ e.type = 2)).map (fun e =>
      compute_coupling_cond_branchpoint
        (params.radius.getD e.sink 0) (params.axial_resistivity.getD e.sink 0)
        (params.length.getD e.sink 0)
      / params.capacitance.getD e.sink 0)) ++
  ((comp_edges.filter (fun e => e.type = 3 ∨ e.type = 4)).map (fun e =>
      compute_impact_on_node
        (params.radius.getD e.source 0) (params.axial_resistivity.getD e.source 0)
        (params.length.getD e.source 0)
      * 1000))

/-- A guarded map over a possibly-empty list equals the unguarded map. -/
theorem if_length_pos_map {α β : Type} (l : List α) (f : α → β) :
    (if l.length > 0 then l.map f else []) = l.map f := by
  split_ifs with h
  · rfl
  · have hnil : l = [] := List.length_eq_zero.mp (by omega)
    simp [hnil]

end Jaxley

namespace Jaxley

/-! ## Theorems for C6 -/

/-- The assembler agrees with the spec-shaped assembly; shared by the
theorems below. -/
theorem axial_assemble_aux (comp_edges : List CompEdge) (params : Params) :
    compute_axial_conductances comp_edges params = assemble_spec comp_edges params := by
  unfold compute_axial_conductances assemble_spec
  simp only [if_length_pos_map]

/-- C6: for every edge table and parameter arrays, the axial conductance
vector is exactly the spec's assembly — the concatenation, in fixed order, of
the c2c conductances, then the bp2c conductances, then the c2bp values, with
the c2c and bp2c entries (but not the c2bp entries) divided by the sink
node's membrane capacitance. -/
theorem compute_axial_conductances_eq_assemble_spec
    (comp_edges : List CompEdge) (params : Params) :
    compute_axial_conductances comp_edges params = assemble_spec comp_edges params :=
  axial_assemble_aux comp_edges params

end Jaxley

namespace Jaxley

/-! ## Theorems for C2 -/

/-- With a negative sink radius and all other inputs positive, the coupling
formula evaluates to a strictly negative value. -/
theorem compute_coupling_cond_neg {r1 r2 ra1 ra2 l1 l2 : ℚ}
    (h1 : r1 < 0) (h2 : 0 < r2) (h3 : 0 < ra1) (h4 : 0 < ra2)
    (h5 : 0 < l1) (h6 : 0 < l2) :
    compute_coupling_cond r1 r2 ra1 ra2 l1 l2 < 0 := by
  unfold compute_coupling_cond
  have hnum : r1 * r2 ^ 2 < 0 := mul_neg_of_neg_of_pos h1 (by positivity)
  have hr1 : r1 ≠ 0 := ne_of_lt h1
  have hden : 0 < ra1 * r2 ^ 2 * l1 + ra2 * r1 ^ 2 * l2 := by positivity
  have hq1 : r1 * r2 ^ 2 / (ra1 * r2 ^ 2 * l1 + ra2 * r1 ^ 2 * l2) < 0 :=
    div_neg_of_neg_of_pos hnum hden
  have hq2 : r1 * r2 ^ 2 / (ra1 * r2 ^ 2 * l1 + ra2 * r1 ^ 2 * l2) / l1 < 0 :=
    div_neg_of_neg_of_pos hq1 h5
  exact mul_neg_of_neg_of_pos hq2 (by norm_num)

/-- C2 (counterexample): on a single c2c edge whose sink compartment has
radius `-1` (all other parameters `1`), `compute_axial_conductances` reports
no error: it silently computes and returns the conductance vector
`[-5000000]`, a strictly negative conductance.  (The source has no
validation or exception path on this code path, so the embedding is a total
function.) -/
theorem C2_counterexample :
    compute_axial_conductances [⟨0, 1, 0⟩] ⟨[-1, 1], [1, 1], [1, 1], [1, 1]⟩ =
        [-5000000] ∧
      (-5000000 : ℚ) < 0 := by
  constructor
  · unfold compute_axial_conductances compute_coupling_cond
    norm_num
  · norm_num

/-- C2 (amended): the conductance computation performs no validation of
positivity: given a single c2c edge whose sink radius is negative and whose
other referenced parameters are strictly positive,
`compute_axial_conductances` still returns a one-entry conductance vector,
and that silently produced conductance is strictly negative. -/
theorem compute_axial_conductances_no_validation (e : CompEdge) (params : Params)
    (htype : e.type = 0)
    (hrsink : params.radius.getD e.sink 0 < 0)
    (hrsrc : 0 < params.radius.getD e.source 0)
    (hrasink : 0 < params.axial_resistivity.getD e.sink 0)
    (hrasrc : 0 < params.axial_resistivity.getD e.source 0)
    (hlsink : 0 < params.length.getD e.sink 0)
    (hlsrc : 0 < params.length.getD e.source 0)
    (hcap : 0 < params.capacitance.getD e.sink 0) :
    (compute_axial_conductances [e] params).length = 1 ∧
    (compute_axial_conductances [e] params).getD 0 0 < 0 := by
  have h12 : ¬(e.type = 1 ∨ e.type = 2) := by omega
  have h34 : ¬(e.type = 3 ∨ e.type = 4) := by omega
  rw [axial_assemble_aux]
  unfold assemble_spec
  rw [List.filter_singleton, List.filter_singleton, List.filter_singleton]
  rw [show (decide (e.type = 0)) = true by simp [htype],
    show (decide (e.type = 1 ∨ e.type = 2)) = false by simp [htype],
    show (decide (e.type = 3 ∨ e.type = 4)) = false by simp [htype]]
  simp only [cond_true, cond_false, List.map_cons, List.map_nil, List.append_nil,
    List.nil_append]
  refine ⟨rfl, ?_⟩
  show compute_coupling_cond _ _ _ _ _ _ / _ < 0
  exact div_neg_of_neg_of_pos
    (compute_coupling_cond_neg hrsink hrsrc hrasink hrasrc hlsink hlsrc) hcap

/-- C2 witness for the amended statement: the concrete single-edge input of
the counterexample discharges every hypothesis. -/
theorem compute_axial_conductances_no_validation_witness :
    (compute_axial_conductances [⟨0, 1, 0⟩] ⟨[-1, 1], [1, 1], [1, 1], [1, 1]⟩).length = 1 ∧
    (compute_axial_conductances [⟨0, 1, 0⟩] ⟨[-1, 1], [1, 1], [1, 1], [1, 1]⟩).getD 0 0 < 0 :=
  compute_axial_conductances_no_validation ⟨0, 1, 0⟩ ⟨[-1, 1], [1, 1], [1, 1], [1, 1]⟩
    rfl (by norm_num) (by norm_num) (by norm_num) (by norm_num) (by norm_num)
    (by norm_num) (by norm_num)

end Jaxley

namespace Jaxley

/-! ## `compute_children_and_parents` (cell_utils.py, lines 515-523) and
`compute_morphology_indices_in_levels` (lines 395-413) -/

/-- The `branch_edges` table: one row per non-root branch, giving its parent
branch index and its own branch index. -/
structure BranchEdges where
  parent_branch_index : List Int
  child_branch_index : List Int
deriving DecidableEq

/-- `compute_children_and_parents(branch_edges)`: returns
`(np.unique(par_inds), child_inds, remap_to_consecutive(par_inds))` — the
distinct parent branches (one per branch point), the child branches, and the
branch-point id each child belongs to. -/
def compute_children_and_parents (branch_edges : BranchEdges) :
    List Int × List Int × List Int :=
  let par_inds := branch_edges.parent_branch_index
  let child_inds := branch_edges.child_branch_index
  let child_belongs_to_branchpoint := remap_to_consecutive par_inds
  (np_unique par_inds, child_inds, child_belongs_to_branchpoint)

/-- The two edge tables of `compute_morphology_indices_in_levels`: rows of
(branch index, branch-point index) pairs. -/
structure MorphIndices where
  children : List (Int × Int)
  parents : List (Int × Int)
deriving DecidableEq

/-- `compute_morphology_indices_in_levels(num_branchpoints,
child_belongs_to_branchpoint, par_inds, child_inds)`: stacks and transposes
the index arrays into the `children` table (child branch, its branch point)
and the `parents` table (parent branch, branch point `0..n-1`). -/
def compute_morphology_indices_in_levels (num_branchpoints : Nat)
    (child_belongs_to_branchpoint par_inds child_inds : List Int) : MorphIndices :=
  { children := child_inds.zip child_belongs_to_branchpoint,
    parents := par_inds.zip (intRange num_branchpoints) }

end Jaxley

namespace Jaxley

/-! ## Theorems for C8 -/

/-- C8: for the 3-branch tree with parent array `[-1, 0, 0]` (whose
`branch_edges` rows are parents `[0, 0]`, children `[1, 2]`):
`compute_levels` returns `[0, 1, 1]`; `compute_children_and_parents` yields
exactly one branch point (`child_belongs_to_branchpoint = [0, 0]`,
`par_inds = [0]`); and `compute_morphology_indices_in_levels` produces a
children table `[(1, 0), (2, 0)]` and a parents table `[(0, 0)]`. -/
theorem three_branch_tree_scenario :
    compute_levels [-1, 0, 0] = [0, 1, 1] ∧
    compute_children_and_parents ⟨[0, 0], [1, 2]⟩ = ([0], [1, 2], [0, 0]) ∧
    compute_morphology_indices_in_levels 1 [0, 0] [0] [1, 2] =
      ⟨[(1, 0), (2, 0)], [(0, 0)]⟩ := by
  refine ⟨by decide, by decide, by decide⟩

end Jaxley
